import Mathlib

/-!
Shallow embedding of the fixed-point value engine of `myhdl/_fixbv.py`
(class `FixedPointFormat` and class `fixbv`).

Conventions of the embedding:
* Python integers are `Int`.  Python floats that only ever hold exactly
  representable fixed-point quantities are modelled as `ℚ`.
* For a positive power-of-two divisor, Python's arithmetic right shift
  `v >> k` is floor division, which agrees with Lean's `v / 2 ^ k`
  (Euclidean division, since the divisor is positive), and Python's
  masking `v & ((1 << k) - 1)` and `%` agree with Lean's `v % 2 ^ k`
  (both are the least non-negative residue).
* Functions that `raise` are modelled with `Except String`.
* Bit widths, which are non-negative in every reachable state of the
  source, are modelled as `Nat` where they act as shift amounts.
-/

/-- The `FixedPointFormat` triple `(wl, iwl, fwl)` of `_fixbv.py`
(lines 30-35): total word length, integer word length, fractional
word length, stored as plain (Python) integers. -/
structure FixedPointFormat where
  wl : Int
  iwl : Int
  fwl : Int
deriving DecidableEq, Repr

/-- `FixedPointFormat.__addsub__` (lines 79-88):
`iwl = max(self._iwl, other._iwl) + 1`, `fwl = max(self._fwl, other._fwl)`,
`wl = iwl + fwl + 1`. -/
def FixedPointFormat.addsub (a b : FixedPointFormat) : FixedPointFormat :=
  let iwl := max a.iwl b.iwl + 1
  let fwl := max a.fwl b.fwl
  let wl := iwl + fwl + 1
  { wl := wl, iwl := iwl, fwl := fwl }

/-- `FixedPointFormat.__add__` (lines 100-101): delegates to `__addsub__`. -/
def FixedPointFormat.add (a b : FixedPointFormat) : FixedPointFormat :=
  a.addsub b

/-- `FixedPointFormat.__sub__` (lines 103-104): delegates to `__addsub__`. -/
def FixedPointFormat.sub (a b : FixedPointFormat) : FixedPointFormat :=
  a.addsub b

/-- `FixedPointFormat.__muldiv__` (lines 90-98):
`wl = self._wl + other._wl`, `fwl = self._fwl + other._fwl`,
`iwl = wl - fwl - 1`. -/
def FixedPointFormat.muldiv (a b : FixedPointFormat) : FixedPointFormat :=
  let wl := a.wl + b.wl
  let fwl := a.fwl + b.fwl
  let iwl := wl - fwl - 1
  { wl := wl, iwl := iwl, fwl := fwl }

/-- `FixedPointFormat.__mul__` (lines 106-107): delegates to `__muldiv__`. -/
def FixedPointFormat.mul (a b : FixedPointFormat) : FixedPointFormat :=
  a.muldiv b

/-- `FixedPointFormat.__div__` (lines 109-110): delegates to `__muldiv__`. -/
def FixedPointFormat.div (a b : FixedPointFormat) : FixedPointFormat :=
  a.muldiv b

/-- Round-mode defaulting in `fixbv.__init__` (lines 119-122):
`None` becomes `'floor'`, anything else is kept verbatim. -/
def fixbv_init_round_mode : Option String → String
  | none => "floor"
  | some m => m

/-- Overflow-mode defaulting in `fixbv.__init__` (lines 124-127):
`None` becomes `'saturate'`, anything else is kept verbatim. -/
def fixbv_init_overflow_mode : Option String → String
  | none => "saturate"
  | some m => m

/-- The `(round_mode, overflow_mode)` pair of the result value of the
binary arithmetic operators.  `fixbv.__add__` (line 291), `__sub__`
(line 312), `__mul__` (line 333) and `__pow__` (line 350) all build the
result as `retval = fixbv(0)[iW[:]]`: the inner `fixbv(0)` passes no
modes, and the format-slice branch of `fixbv.__getitem__` (line 234)
constructs `fixbv(fval, min=nmin, max=nmax, res=res)`, again passing no
modes, so `__init__` installs the defaults.  No later statement of the
operators touches the result's modes.  The operands' mode pairs are
taken as arguments to record that the construction never consults
them. -/
def fixbv_arith_result_modes (_a _b : String × String) : String × String :=
  (fixbv_init_round_mode none, fixbv_init_overflow_mode none)

/-- Outcome of the argument-validation prefix of `fixbv.__init__`. -/
inductive InitOutcome where
  | deferred
  | invalid (msg : String)
  | ok
deriving DecidableEq, Repr

/-- InitOutcome.isInvalid: whether the outcome is a raised `ValueError`. -/
def InitOutcome.isInvalid : InitOutcome → Bool
  | .invalid _ => true
  | _ => false

/-- The range/resolution validation of `fixbv.__init__` (lines 129-151)
for numeric arguments.  `if None in (min, max, res)` sets
`self._val = None` and returns without raising (modelled as
`deferred`); otherwise `max < 1 or abs(min) < 1` raises, then
`res <= 0 or res > 1` raises, and otherwise construction proceeds
(the `max is None` / `min is None` / `res is None` re-checks on lines
142-148 are unreachable for numeric arguments once the first check has
passed). -/
def fixbv_init_validate (vmin vmax vres : Option ℚ) : InitOutcome :=
  match vmin, vmax, vres with
  | some mn, some mx, some rs =>
    if mx < 1 ∨ |mn| < 1 then
      InitOutcome.invalid "Maximum and Minimum has to be 1 or greater"
    else if rs ≤ 0 ∨ rs > 1 then
      InitOutcome.invalid "Resolution must be in range (0, 1]"
    else InitOutcome.ok
  | _, _, _ => InitOutcome.deferred

/-- The fixed-point branch of the static method `fixbv._round`
(lines 595-669), re-quantizing a stored raw value `v` whose format has
word length `val_wl` and fractional length `val_fwl` into a format with
fractional length `fmt_fwl`.  When `val._W._fwl <= fmt._fwl` the raw
value is left-shifted with no rounding (line 596-599); otherwise
`round_bits = val._W._fwl - fmt._fwl` and the bit fields of lines
614-620 drive the per-mode decision table of lines 622-667. -/
def fixbv_round (v : Int) (val_wl val_fwl fmt_fwl : Nat)
    (round_mode : String) : Except String Int :=
  if val_fwl ≤ fmt_fwl then
    Except.ok (v * 2 ^ (fmt_fwl - val_fwl))
  else
    let round_bits := val_fwl - fmt_fwl
    let sign_bit := (v / 2 ^ (val_wl - 1)) % 2
    let least_reserve_bit := (v / 2 ^ round_bits) % 2
    let greatest_tail_bit := (v / 2 ^ (round_bits - 1)) % 2
    let tail_bits := v % 2 ^ round_bits
    let retval := v / 2 ^ round_bits
    if round_mode = "ceil" then
      Except.ok (if tail_bits ≠ 0 then retval + 1 else retval)
    else if round_mode = "floor" then
      Except.ok retval
    else if round_mode = "fix" then
      Except.ok (if sign_bit = 1 ∧ tail_bits ≠ 0 then retval + 1 else retval)
    else if round_mode = "nearest" then
      Except.ok
        (if sign_bit = 0 then
          if greatest_tail_bit = 1 then retval + 1 else retval
        else
          let middle : Int := 2 ^ (round_bits - 1)
          if tail_bits > middle then retval + 1 else retval)
    else if round_mode = "round" ∨ round_mode = "round_even" ∨
        round_mode = "convergent" then
      Except.ok
        (let middle : Int := 2 ^ (round_bits - 1)
        if sign_bit = 0 then
          if tail_bits = middle then
            if least_reserve_bit = 1 then retval + 1 else retval
          else if tail_bits > middle then retval + 1
          else retval
        else
          if tail_bits = middle then
            if least_reserve_bit = 1 then retval + 1 else retval
          else if tail_bits > middle then retval + 1
          else retval)
    else
      Except.error ("Invalid round mode " ++ round_mode)

/-- The integer branch of the static method `fixbv._overflow`
(lines 674-704) for a stored raw value: `mm = 2 ** (wl - 1)`,
`mmin, mmax = -mm, mm`; `'saturate'` clamps to `mmax - 1` when
`val >= mmax` and to `mmin` when `val <= mmin`; `'ring'` / `'wrap'`
computes `(val - mmin) % (mmax - mmin) + mmin`; any other mode raises. -/
def fixbv_overflow (v : Int) (wl : Nat)
    (overflow_mode : String) : Except String Int :=
  let mm : Int := 2 ^ (wl - 1)
  let mmin := -mm
  let mmax := mm
  if overflow_mode = "saturate" then
    Except.ok (if v ≥ mmax then mmax - 1 else if v ≤ mmin then mmin else v)
  else if overflow_mode = "ring" ∨ overflow_mode = "wrap" then
    Except.ok ((v - mmin) % (mmax - mmin) + mmin)
  else
    Except.error ("Invalid overflow mode " ++ overflow_mode)

/-- `fixbv.int` (lines 709-714): `self._val >> self._W._fwl`, the
integer portion of the fixed-point value. -/
def fixbv_int (v : Int) (fwl : Nat) : Int :=
  v / 2 ^ fwl

/-- `fixbv.frac` (lines 716-721): `self._val & ((1 << self._W._fwl) - 1)`,
the fractional portion of the fixed-point value. -/
def fixbv_frac (v : Int) (fwl : Nat) : Int :=
  v % 2 ^ fwl

/-- `fixbv._to_float` (lines 541-543): `float(self._val) / (2.0 ** fwl)`,
the represented real value, modelled exactly over `ℚ`. -/
def fixbv_to_float (v : Int) (fwl : Nat) : ℚ :=
  (v : ℚ) / 2 ^ fwl

instance : DecidableEq (Except String Int) := fun a b =>
  match a, b with
  | Except.ok x, Except.ok y =>
    if h : x = y then isTrue (by rw [h]) else isFalse (by simp [h])
  | Except.error x, Except.error y =>
    if h : x = y then isTrue (by rw [h]) else isFalse (by simp [h])
  | Except.ok _, Except.error _ => isFalse (by simp)
  | Except.error _, Except.ok _ => isFalse (by simp)

/-- C2: for all formats a and b, `__add__` / `__sub__` return
`Format(I' + F' + 1, I', F')` with `I' = max(a.I, b.I) + 1` and
`F' = max(a.F, b.F)`; in particular
`Format(8,3,4) + Format(8,3,4) = Format(9,4,4)`. -/
theorem fixbv_C2 :
    (∀ a b : FixedPointFormat,
      a.add b = { wl := (max a.iwl b.iwl + 1) + max a.fwl b.fwl + 1,
                  iwl := max a.iwl b.iwl + 1, fwl := max a.fwl b.fwl } ∧
      a.sub b = { wl := (max a.iwl b.iwl + 1) + max a.fwl b.fwl + 1,
                  iwl := max a.iwl b.iwl + 1, fwl := max a.fwl b.fwl }) ∧
    FixedPointFormat.add ⟨8, 3, 4⟩ ⟨8, 3, 4⟩ = ⟨9, 4, 4⟩ :=
  ⟨fun _ _ => ⟨rfl, rfl⟩, by decide⟩

/-- C3: for all formats a and b, `__mul__` / `__div__` return
`Format(a.W + b.W, (a.W + b.W) - (a.F + b.F) - 1, a.F + b.F)`, and the
returned format satisfies the invariant `W = I + F + 1`. -/
theorem fixbv_C3 : ∀ a b : FixedPointFormat,
    (a.mul b = { wl := a.wl + b.wl, iwl := (a.wl + b.wl) - (a.fwl + b.fwl) - 1,
                 fwl := a.fwl + b.fwl } ∧
     a.div b = { wl := a.wl + b.wl, iwl := (a.wl + b.wl) - (a.fwl + b.fwl) - 1,
                 fwl := a.fwl + b.fwl }) ∧
    (a.mul b).wl = (a.mul b).iwl + (a.mul b).fwl + 1 := by
  intro a b
  refine ⟨⟨rfl, rfl⟩, ?_⟩
  simp only [FixedPointFormat.mul, FixedPointFormat.muldiv]
  ring

/-- C4 counterexample: the format product of Format(8,3,4) with itself
is not Format(16,8,8): the integer width comes out as 7, since
`iwl = wl - fwl - 1 = 16 - 8 - 1`. -/
theorem fixbv_C4_counterexample :
    FixedPointFormat.mul ⟨8, 3, 4⟩ ⟨8, 3, 4⟩ ≠ ⟨16, 8, 8⟩ := by decide

/-- C4 (amended): multiplying Format(8,3,4) by Format(8,3,4) yields
Format(16,7,8). -/
theorem fixbv_C4 :
    FixedPointFormat.mul ⟨8, 3, 4⟩ ⟨8, 3, 4⟩ = ⟨16, 7, 8⟩ := by decide

/-- C5 counterexample: a left operand carrying round mode 'ceil' and
overflow mode 'wrap' does not pass its modes to the arithmetic result;
the result is built with the constructor defaults instead. -/
theorem fixbv_C5_counterexample :
    fixbv_arith_result_modes ("ceil", "wrap") ("floor", "saturate") ≠
      ("ceil", "wrap") := by decide

/-- C5 (amended): the value returned by a binary arithmetic operator
always carries the constructor-default modes ('floor', 'saturate'),
whatever either operand's modes are; the left operand's modes are not
inherited. -/
theorem fixbv_C5 : ∀ a b : String × String,
    fixbv_arith_result_modes a b = ("floor", "saturate") :=
  fun _ _ => rfl

/-- Closed form of the 'saturate' branch of `fixbv._overflow`. -/
theorem fixbv_overflow_saturate_eq (v : Int) (wl : Nat) :
    fixbv_overflow v wl "saturate" =
      Except.ok (if v ≥ 2 ^ (wl - 1) then 2 ^ (wl - 1) - 1
        else if v ≤ -(2 ^ (wl - 1) : Int) then -(2 ^ (wl - 1) : Int) else v) := by
  simp [fixbv_overflow]

/-- Closed form of the 'wrap' branch of `fixbv._overflow`: the source's
`(val - mmin) % (mmax - mmin) + mmin` with the modulus rewritten as
`2 * mm`. -/
theorem fixbv_overflow_wrap_eq (v : Int) (wl : Nat) :
    fixbv_overflow v wl "wrap" =
      Except.ok ((v - -(2 ^ (wl - 1) : Int)) % (2 * 2 ^ (wl - 1)) +
        -(2 ^ (wl - 1) : Int)) := by
  have h2 : (2 ^ (wl - 1) : Int) - -(2 ^ (wl - 1)) = 2 * 2 ^ (wl - 1) := by
    ring
  simp [fixbv_overflow, h2]

/-- C7: with `mm = 2 ^ (wl - 1)`, mode 'saturate' clamps `v >= mm` to
`mm - 1` and `v <= -mm` to `-mm` and otherwise returns `v`; mode
'wrap' returns `((v - (-mm)) % (2 * mm)) + (-mm)`, which always lies in
the interval `[-mm, mm)`; in particular `mm` wraps to `-mm`, `mm`
saturates to `mm - 1`, and `-mm - 1` saturates to `-mm`. -/
theorem fixbv_C7 : ∀ (v : Int) (wl : Nat),
    fixbv_overflow v wl "saturate" =
      Except.ok (if v ≥ 2 ^ (wl - 1) then 2 ^ (wl - 1) - 1
        else if v ≤ -(2 ^ (wl - 1) : Int) then -(2 ^ (wl - 1) : Int) else v) ∧
    fixbv_overflow v wl "wrap" =
      Except.ok ((v - -(2 ^ (wl - 1) : Int)) % (2 * 2 ^ (wl - 1)) +
        -(2 ^ (wl - 1) : Int)) ∧
    -(2 ^ (wl - 1) : Int) ≤
      (v - -(2 ^ (wl - 1) : Int)) % (2 * 2 ^ (wl - 1)) + -(2 ^ (wl - 1) : Int) ∧
    (v - -(2 ^ (wl - 1) : Int)) % (2 * 2 ^ (wl - 1)) + -(2 ^ (wl - 1) : Int) <
      2 ^ (wl - 1) ∧
    fixbv_overflow (2 ^ (wl - 1)) wl "wrap" =
      Except.ok (-(2 ^ (wl - 1) : Int)) ∧
    fixbv_overflow (2 ^ (wl - 1)) wl "saturate" =
      Except.ok (2 ^ (wl - 1) - 1) ∧
    fixbv_overflow (-(2 ^ (wl - 1) : Int) - 1) wl "saturate" =
      Except.ok (-(2 ^ (wl - 1) : Int)) := by
  intro v wl
  have hm : (0 : Int) < 2 ^ (wl - 1) := by positivity
  have h2 : (2 ^ (wl - 1) : Int) - -(2 ^ (wl - 1)) = 2 * 2 ^ (wl - 1) := by ring
  have he0 : (0 : Int) ≤ (v - -(2 ^ (wl - 1) : Int)) % (2 * 2 ^ (wl - 1)) :=
    Int.emod_nonneg _ (by positivity : (0 : Int) < 2 * 2 ^ (wl - 1)).ne'
  have he1 : (v - -(2 ^ (wl - 1) : Int)) % (2 * 2 ^ (wl - 1)) <
      2 * 2 ^ (wl - 1) :=
    Int.emod_lt_of_pos _ (by positivity)
  refine ⟨fixbv_overflow_saturate_eq v wl, fixbv_overflow_wrap_eq v wl,
    by linarith, by linarith, ?_, ?_, ?_⟩
  · have hz : ((2 ^ (wl - 1) : Int) - -(2 ^ (wl - 1))) % (2 * 2 ^ (wl - 1)) =
        0 := by
      rw [h2]
      exact Int.emod_self
    rw [fixbv_overflow_wrap_eq, hz]
    norm_num
  · rw [fixbv_overflow_saturate_eq, if_pos (by linarith)]
  · rw [fixbv_overflow_saturate_eq, if_neg (by linarith), if_pos (by linarith)]

/-- C8 counterexample: constructing with min, max and resolution all
absent does not raise; `fixbv.__init__` returns early with no stored
value (this is exactly how the operators' `fixbv(0)` calls work). -/
theorem fixbv_C8_counterexample :
    fixbv_init_validate none none none = InitOutcome.deferred ∧
    (fixbv_init_validate none none none).isInvalid = false := by decide

/-- C8 (amended): when min, max and resolution are all supplied,
construction raises exactly when `max < 1` or `|min| < 1` or the
resolution lies outside `(0, 1]`; when any of the three is absent the
constructor instead returns early without raising, leaving the value
unset. -/
theorem fixbv_C8 : ∀ mn mx rs : ℚ,
    ((fixbv_init_validate (some mn) (some mx) (some rs)).isInvalid = true ↔
      mx < 1 ∨ |mn| < 1 ∨ rs ≤ 0 ∨ 1 < rs) ∧
    (∀ b c : Option ℚ, fixbv_init_validate none b c = InitOutcome.deferred) ∧
    (∀ a c : Option ℚ, fixbv_init_validate a none c = InitOutcome.deferred) ∧
    (∀ a b : Option ℚ, fixbv_init_validate a b none = InitOutcome.deferred) := by
  intro mn mx rs
  refine ⟨?_, ?_, ?_, ?_⟩
  · simp only [fixbv_init_validate]
    split_ifs with h1 h2
    · simp only [InitOutcome.isInvalid]
      exact ⟨fun _ => by tauto, fun _ => trivial⟩
    · simp only [InitOutcome.isInvalid]
      exact ⟨fun _ => by tauto, fun _ => trivial⟩
    · simp only [InitOutcome.isInvalid]
      exact ⟨fun h => absurd h (by simp), fun hp => absurd hp (by tauto)⟩
  · intro b c
    cases b <;> cases c <;> rfl
  · intro a c
    cases a <;> cases c <;> rfl
  · intro a b
    cases a <;> cases b <;> rfl

/-- C10: `int()` is the arithmetic right shift of the raw value by the
fractional width, hence the floor (toward minus infinity) of the
represented real value; `frac()` is the masked low bits, non-negative
and below `2 ^ F`; and the raw value decomposes as
`(int() << F) + frac()`. -/
theorem fixbv_C10 : ∀ (v : Int) (fwl : Nat),
    fixbv_int v fwl = ⌊fixbv_to_float v fwl⌋ ∧
    fixbv_int v fwl * 2 ^ fwl ≤ v ∧
    v < (fixbv_int v fwl + 1) * 2 ^ fwl ∧
    0 ≤ fixbv_frac v fwl ∧
    fixbv_frac v fwl < 2 ^ fwl ∧
    v = fixbv_int v fwl * 2 ^ fwl + fixbv_frac v fwl := by
  intro v fwl
  have hp : (0 : Int) < 2 ^ fwl := by positivity
  have hdm : 2 ^ fwl * (v / 2 ^ fwl) + v % 2 ^ fwl = v :=
    Int.ediv_add_emod v (2 ^ fwl)
  have h0 : (0 : Int) ≤ v % 2 ^ fwl := Int.emod_nonneg v hp.ne'
  have h1 : v % 2 ^ fwl < 2 ^ fwl := Int.emod_lt_of_pos v hp
  have hc : v / 2 ^ fwl * 2 ^ fwl = 2 ^ fwl * (v / 2 ^ fwl) := mul_comm _ _
  have hd : (v / 2 ^ fwl + 1) * 2 ^ fwl = 2 ^ fwl * (v / 2 ^ fwl) + 2 ^ fwl := by
    ring
  have hfl : ⌊fixbv_to_float v fwl⌋ = v / 2 ^ fwl := by
    have h := Rat.floor_intCast_div_natCast v (2 ^ fwl)
    push_cast at h
    simpa [fixbv_to_float] using h
  refine ⟨?_, ?_, ?_, h0, h1, ?_⟩
  · simp only [fixbv_int, hfl]
  · simp only [fixbv_int]
    rw [hc]
    linarith
  · simp only [fixbv_int]
    rw [hd]
    linarith
  · simp only [fixbv_int, fixbv_frac]
    rw [hc]
    linarith

/-- The `greatest_tail_bit` of `fixbv._round` (line 618), bit `s - 1` of
the raw value, is set exactly when the discarded tail
`v % 2 ^ s` is at least the midpoint `2 ^ (s - 1)`. -/
theorem tail_top_bit_eq_one_iff (v : Int) (s : Nat) (hs : 1 ≤ s) :
    (v / 2 ^ (s - 1)) % 2 = 1 ↔ 2 ^ (s - 1) ≤ v % 2 ^ s := by
  have hm : (0 : Int) < 2 ^ (s - 1) := by positivity
  have hps : (0 : Int) < 2 ^ s := by positivity
  have hpow : (2 : Int) ^ s = 2 ^ (s - 1) * 2 := by
    rw [← pow_succ]
    congr 1
    omega
  have hr0 : 0 ≤ v % 2 ^ s := Int.emod_nonneg v hps.ne'
  have hr1 : v % 2 ^ s < 2 ^ s := Int.emod_lt_of_pos v hps
  have hq : v / 2 ^ (s - 1) = v % 2 ^ s / 2 ^ (s - 1) + 2 * (v / 2 ^ s) := by
    conv_lhs => rw [← Int.ediv_add_emod v (2 ^ s)]
    rw [show (2 : Int) ^ s * (v / 2 ^ s) + v % 2 ^ s =
        v % 2 ^ s + 2 ^ (s - 1) * (2 * (v / 2 ^ s)) by rw [hpow]; ring]
    rw [Int.add_mul_ediv_left _ _ hm.ne']
  have hcase : v % 2 ^ s / 2 ^ (s - 1) =
      if 2 ^ (s - 1) ≤ v % 2 ^ s then 1 else 0 := by
    split_ifs with hle
    · have hub : v % 2 ^ s / 2 ^ (s - 1) < 2 :=
        (Int.ediv_lt_iff_lt_mul hm).mpr (by linarith [hpow, hr1])
      have hlb : 1 ≤ v % 2 ^ s / 2 ^ (s - 1) :=
        (Int.le_ediv_iff_mul_le hm).mpr (by linarith)
      omega
    · exact Int.ediv_eq_zero_of_lt hr0 (by linarith)
  rw [hq, Int.add_mul_emod_self_left, hcase]
  split_ifs with hle <;> simp [hle]

/-- C6: re-quantizing to a strictly smaller fractional width with mode
'nearest' increments the kept value exactly when the tail is greater
than or equal to the midpoint if the stored sign bit is 0, and exactly
when the tail is strictly greater than the midpoint if the sign bit is
1 (the sign bit `(v >> (wl-1)) & 1` is always 0 or 1, so the else
branch of the test against 0 is the sign-bit-1 case). -/
theorem fixbv_C6 : ∀ (v : Int) (val_wl val_fwl fmt_fwl : Nat),
    fmt_fwl < val_fwl →
    fixbv_round v val_wl val_fwl fmt_fwl "nearest" =
      Except.ok
        (if (v / 2 ^ (val_wl - 1)) % 2 = 0 then
          if 2 ^ (val_fwl - fmt_fwl - 1) ≤ v % 2 ^ (val_fwl - fmt_fwl) then
            v / 2 ^ (val_fwl - fmt_fwl) + 1
          else v / 2 ^ (val_fwl - fmt_fwl)
        else
          if v % 2 ^ (val_fwl - fmt_fwl) > 2 ^ (val_fwl - fmt_fwl - 1) then
            v / 2 ^ (val_fwl - fmt_fwl) + 1
          else v / 2 ^ (val_fwl - fmt_fwl)) := by
  intro v val_wl val_fwl fmt_fwl h
  have hle : ¬ (val_fwl ≤ fmt_fwl) := by omega
  have hs : 1 ≤ val_fwl - fmt_fwl := by omega
  simp only [fixbv_round, if_neg hle]
  rw [if_neg (show ¬("nearest" : String) = "ceil" by decide),
      if_neg (show ¬("nearest" : String) = "floor" by decide),
      if_neg (show ¬("nearest" : String) = "fix" by decide),
      if_pos trivial]
  congr 1
  by_cases hsb : (v / 2 ^ (val_wl - 1)) % 2 = 0
  · rw [if_pos hsb, if_pos hsb]
    exact if_congr (tail_top_bit_eq_one_iff v _ hs) rfl rfl
  · rw [if_neg hsb, if_neg hsb]

/-- C6 witness: raw -5 (sign bit 1) from F=2 to F=0 has tail 3 above
the midpoint 2, so nearest gives -2 + 1 = -1; raw 6 (sign bit 0) has
tail 2 equal to the midpoint, so nearest gives 1 + 1 = 2. -/
theorem fixbv_C6_witness :
    fixbv_round (-5) 6 2 0 "nearest" = Except.ok (-1) ∧
    fixbv_round 6 6 2 0 "nearest" = Except.ok 2 := by
  constructor
  · rw [fixbv_C6 (-5) 6 2 0 (by decide)]
    decide
  · rw [fixbv_C6 6 6 2 0 (by decide)]
    decide

/-- C1 counterexample: raw 2 re-quantized from F=2 to F=0 under mode
'round' is an exact midpoint tie (tail 2 = midpoint 2) with even kept
value 0; the code keeps 0 instead of always incrementing to
`kept + 1 = 1` as the claim states. -/
theorem fixbv_C1_counterexample :
    fixbv_round 2 6 2 0 "round" = Except.ok 0 ∧
    fixbv_round 2 6 2 0 "round" ≠ Except.ok (2 / 2 ^ 2 + 1 : Int) := by
  decide

/-- C1 (amended): at an exact midpoint tie, modes 'round' and
'round_even' behave identically: the kept value is incremented by 1
exactly when its least-significant bit (the `least_reserve_bit`) is 1,
in both the positive and the negative sign branch; 'round' does not
round away unconditionally. -/
theorem fixbv_C1 : ∀ (v : Int) (val_wl val_fwl fmt_fwl : Nat),
    fmt_fwl < val_fwl →
    v % 2 ^ (val_fwl - fmt_fwl) = 2 ^ (val_fwl - fmt_fwl - 1) →
    fixbv_round v val_wl val_fwl fmt_fwl "round" =
      Except.ok (if (v / 2 ^ (val_fwl - fmt_fwl)) % 2 = 1 then
        v / 2 ^ (val_fwl - fmt_fwl) + 1 else v / 2 ^ (val_fwl - fmt_fwl)) ∧
    fixbv_round v val_wl val_fwl fmt_fwl "round_even" =
      Except.ok (if (v / 2 ^ (val_fwl - fmt_fwl)) % 2 = 1 then
        v / 2 ^ (val_fwl - fmt_fwl) + 1 else v / 2 ^ (val_fwl - fmt_fwl)) := by
  intro v val_wl val_fwl fmt_fwl h ht
  have hle : ¬ (val_fwl ≤ fmt_fwl) := by omega
  constructor
  · simp only [fixbv_round, if_neg hle]
    rw [if_neg (show ¬("round" : String) = "ceil" by decide),
        if_neg (show ¬("round" : String) = "floor" by decide),
        if_neg (show ¬("round" : String) = "fix" by decide),
        if_neg (show ¬("round" : String) = "nearest" by decide),
        if_pos (Or.inl trivial)]
    simp only [ht, ite_self]
    rw [if_pos trivial]
  · simp only [fixbv_round, if_neg hle]
    rw [if_neg (show ¬("round_even" : String) = "ceil" by decide),
        if_neg (show ¬("round_even" : String) = "floor" by decide),
        if_neg (show ¬("round_even" : String) = "fix" by decide),
        if_neg (show ¬("round_even" : String) = "nearest" by decide),
        if_pos (Or.inr (Or.inl trivial))]
    simp only [ht, ite_self]
    rw [if_pos trivial]

/-- C1 witness: raw 2 (even kept 0) stays 0 under both tie modes; raw 6
(odd kept 1) becomes 2 under both tie modes. -/
theorem fixbv_C1_witness :
    fixbv_round 2 6 2 0 "round" = Except.ok 0 ∧
    fixbv_round 6 6 2 0 "round_even" = Except.ok 2 := by
  constructor
  · rw [(fixbv_C1 2 6 2 0 (by decide) (by decide)).1]
    decide
  · rw [(fixbv_C1 6 6 2 0 (by decide) (by decide)).2]
    decide

/-- C9 counterexample: the mode string 'convergent' lies outside the
claimed closed set {floor, ceil, fix, nearest, round, round_even} yet
the rounding engine accepts it, and 'ring' lies outside the claimed set
{saturate, wrap} yet the overflow engine accepts it. -/
theorem fixbv_C9_counterexample :
    fixbv_round 7 6 2 0 "convergent" = Except.ok 2 ∧
    fixbv_overflow 3 4 "ring" = Except.ok 3 := by decide

/-- C9 (amended): in the dispatching (fractional-width-reducing) branch
the rounding engine accepts exactly the modes floor, ceil, fix,
nearest, round, round_even and convergent, raising the invalid-mode
error on every other string; the overflow engine accepts exactly
saturate, wrap and ring, raising the invalid-mode error on every other
string. -/
theorem fixbv_C9 :
    (∀ (mode : String) (v : Int) (val_wl val_fwl fmt_fwl : Nat),
      fmt_fwl < val_fwl →
      (mode ≠ "floor" → mode ≠ "ceil" → mode ≠ "fix" → mode ≠ "nearest" →
        mode ≠ "round" → mode ≠ "round_even" → mode ≠ "convergent" →
        fixbv_round v val_wl val_fwl fmt_fwl mode =
          Except.error ("Invalid round mode " ++ mode)) ∧
      ((mode = "floor" ∨ mode = "ceil" ∨ mode = "fix" ∨ mode = "nearest" ∨
          mode = "round" ∨ mode = "round_even" ∨ mode = "convergent") →
        ∃ r, fixbv_round v val_wl val_fwl fmt_fwl mode = Except.ok r)) ∧
    (∀ (mode : String) (v : Int) (wl : Nat),
      (mode ≠ "saturate" → mode ≠ "wrap" → mode ≠ "ring" →
        fixbv_overflow v wl mode =
          Except.error ("Invalid overflow mode " ++ mode)) ∧
      ((mode = "saturate" ∨ mode = "wrap" ∨ mode = "ring") →
        ∃ r, fixbv_overflow v wl mode = Except.ok r)) := by
  constructor
  · intro mode v val_wl val_fwl fmt_fwl h
    have hle : ¬ (val_fwl ≤ fmt_fwl) := by omega
    constructor
    · intro n1 n2 n3 n4 n5 n6 n7
      simp only [fixbv_round, if_neg hle]
      rw [if_neg n2, if_neg n1, if_neg n3, if_neg n4, if_neg (by tauto)]
    · intro hmem
      rcases hmem with hm | hm | hm | hm | hm | hm | hm <;> subst hm <;>
        exact ⟨_, by simp [fixbv_round, if_neg hle]; rfl⟩
  · intro mode v wl
    constructor
    · intro n1 n2 n3
      simp only [fixbv_overflow]
      rw [if_neg n1, if_neg (by tauto)]
    · intro hmem
      rcases hmem with hm | hm | hm <;> subst hm <;>
        exact ⟨_, by simp [fixbv_overflow]; rfl⟩

/-- C9 witness: the unknown mode strings 'trunc' and 'clip' are
rejected by the rounding and the overflow engine respectively. -/
theorem fixbv_C9_witness :
    fixbv_round 7 6 2 0 "trunc" =
      Except.error ("Invalid round mode " ++ "trunc") ∧
    fixbv_overflow 7 4 "clip" =
      Except.error ("Invalid overflow mode " ++ "clip") :=
  ⟨(fixbv_C9.1 "trunc" 7 6 2 0 (by decide)).1 (by decide) (by decide)
      (by decide) (by decide) (by decide) (by decide) (by decide),
    (fixbv_C9.2 "clip" 7 4).1 (by decide) (by decide) (by decide)⟩
